import Mathlib

/-
  Verification development for `tools/make-sql-inserts.py`, a script that
  emits synthetic SQL insert statements for one table.

  Shallow embedding notes:
  * Python strings are modelled as `List Char` (`Word`).
  * The dictionary file is an `Option (List Word)`: `none` models a file that
    cannot be opened (Python raises `IOError` from `open`, modelled as
    `PyErr.ioError`); `some lines` is its list of lines.
  * `random.shuffle` is modelled by an oracle `shuffles : Nat → List Word →
    List Word` carried in the generator state together with a counter; the
    n-th shuffle of the run applies `shuffles n`.  Theorems that need
    shuffles to behave like `random.shuffle` assume `PermOracle`, i.e. every
    oracle output is a permutation of its input.
  * The script prints as it goes; `run` collects the lines printed before
    termination together with `none` (normal exit) or the uncaught Python
    exception.  A record is kept structured (`Stmt.insertRec`) rather than
    as the final interpolated template text; the `use` line is kept as the
    literal text printed by `print "use %s;" % db_name`.
  * `PyErr.configurationError` never occurs in the code; the constructor
    exists so that spec sentences talking about a `ConfigurationError` can
    be stated and compared against what the code actually does.
-/

namespace SqlInserts

/-- Python strings are modelled as lists of characters. -/
abbrev Word := List Char

/-- Uncaught Python exceptions relevant to this script, plus the
`ConfigurationError` that the spec speaks about (never raised by the code). -/
inductive PyErr where
  | ioError
  | indexError
  | configurationError
deriving DecidableEq, Repr

/-- The hardcoded "flags" block of the script (`dict_filename` is replaced by
the file contents passed to `run` directly). -/
structure Config where
  first_id_inclusive : Int
  last_id_exclusive : Int
  db_name : Word
  table_name : Word
  print_use_db_line : Bool

/-- One printed output item: the `use <db>;` line (kept as its literal
character sequence) or one insert statement with its column values. -/
inductive Stmt where
  | useDb (line : Word)
  | insertRec (table : Word) (part : Word) (description : Word) (seller_id : Int)
      (seller_name : Word) (price : Int) (notes : Word) (stock : Int)
deriving DecidableEq, Repr

/-- The `stock` column of an insert statement, if any. -/
def stmt_stock : Stmt → Option Int
  | .insertRec _ _ _ _ _ _ _ stk => some stk
  | _ => none

/-- The `seller_id` column of an insert statement, if any. -/
def stmt_seller : Stmt → Option Int
  | .insertRec _ _ _ sid _ _ _ _ => some sid
  | _ => none

/-- The table name of an insert statement, if any. -/
def stmt_table : Stmt → Option Word
  | .insertRec tbl _ _ _ _ _ _ _ => some tbl
  | _ => none

/-- Table, seller_id and stock of a statement, bundled. -/
def stmt_summary (st : Stmt) : Option Word × Option Int × Option Int :=
  (stmt_table st, stmt_seller st, stmt_stock st)

/-- The mutable globals of the script (`words`, `word_index`) together with
the randomness oracle used to model `random.shuffle`. -/
structure GenState where
  words : List Word
  word_index : Nat
  shuffles : Nat → List Word → List Word
  shuffle_count : Nat

/-- The character class kept by `re.sub("[^0-9a-zA-Z]", "", line)`. -/
def isAlnumChar (c : Char) : Bool :=
  (decide ('0' ≤ c) && decide (c ≤ '9')) ||
  (decide ('a' ≤ c) && decide (c ≤ 'z')) ||
  (decide ('A' ≤ c) && decide (c ≤ 'Z'))

/-- The word-collecting loop of `init_data_structure`: strip every
non-alphanumeric character from each line and keep the nonempty results.
(The `line.strip()` of the source is a no-op at that point, since whitespace
is not alphanumeric and was already removed.) -/
def load_words (lines : List Word) : List Word :=
  (lines.map (fun line => line.filter isAlnumChar)).filter (fun line => !line.isEmpty)

/-- `init_data_structure` after a successful `open`: load the words and apply
the initial `random.shuffle` (oracle index 0). -/
def init_state (lines : List Word) (sh : Nat → List Word → List Word) : GenState :=
  ⟨sh 0 (load_words lines), 0, sh, 1⟩

/-- `next_word()`: return `words[word_index]`, advance the cursor modulo
`len(words)`, and reshuffle when the cursor wrapped to 0.  On an empty pool,
`words[word_index]` raises `IndexError` (before the `% len(words)` would
divide by zero). -/
def next_word (s : GenState) : Except PyErr (Word × GenState) :=
  match s.words[s.word_index]? with
  | none => .error .indexError
  | some word =>
    if (s.word_index + 1) % s.words.length = 0 then
      .ok (word, ⟨s.shuffles s.shuffle_count s.words, 0, s.shuffles, s.shuffle_count + 1⟩)
    else
      .ok (word, ⟨s.words, (s.word_index + 1) % s.words.length, s.shuffles, s.shuffle_count⟩)

/-- `' '.join(chosen)`: join words with single space separators. -/
def join_sp : List Word → Word
  | [] => []
  | [w] => w
  | w :: w2 :: ws => w ++ ' ' :: join_sp (w2 :: ws)

/-- Total accumulated count of a chosen list: each word contributes its
length plus one separator, exactly like `used = used + len(word) + 1`. -/
def wsum : List Word → Nat
  | [] => 0
  | w :: ws => w.length + 1 + wsum ws

/-- The `while used < max_len` loop of `make_vchar`, also returning the final
value of `used`.  It terminates because `used` grows by at least 1 per
iteration. -/
def vchar_loop (s : GenState) (max_len used : Nat) (chosen : List Word) :
    Except PyErr (List Word × Nat × GenState) :=
  if h : used < max_len then
    match next_word s with
    | .error e => .error e
    | .ok (word, s') => vchar_loop s' max_len (used + word.length + 1) (chosen ++ [word])
  else
    .ok (chosen, used, s)
termination_by max_len - used
decreasing_by simp_wf; omega

/-- `make_vchar(max_len)`: run the accumulation loop, join with spaces, then
truncate to `max_len` characters (`vchar[:max_len]`). -/
def make_vchar (s : GenState) (max_len : Nat) : Except PyErr (Word × GenState) :=
  match vchar_loop s max_len 0 [] with
  | .error e => .error e
  | .ok (chosen, _, s') => .ok ((join_sp chosen).take max_len, s')

/-- One iteration of the `while i < last_id_exclusive` loop of `main`: build
the four text fields in source order and assemble the record.  `price` is
`float(i)` in the source; since `i` is an integer it is stored exactly, and
we keep the integer. -/
def gen_record (cfg : Config) (s : GenState) (i : Int) : Except PyErr (Stmt × GenState) :=
  match make_vchar s 48 with
  | .error e => .error e
  | .ok (part, s1) =>
    match make_vchar s1 2024 with
    | .error e => .error e
    | .ok (des, s2) =>
      match make_vchar s2 128 with
      | .error e => .error e
      | .ok (seller_name, s3) =>
        match make_vchar s3 7168 with
        | .error e => .error e
        | .ok (notes, s4) =>
          .ok (.insertRec cfg.table_name part des i seller_name i notes
                (cfg.last_id_exclusive * 5 - i), s4)

/-- The record loop of `main`, run for `n` remaining iterations starting at
index `i`; returns the records printed before exit and the uncaught
exception, if any. -/
def main_loop (cfg : Config) : GenState → Nat → Int → List Stmt × Option PyErr
  | _, 0, _ => ([], none)
  | s, n + 1, i =>
    match gen_record cfg s i with
    | .error e => ([], some e)
    | .ok (st, s') =>
      match main_loop cfg s' n (i + 1) with
      | (rest, err) => (st :: rest, err)

/-- The literal text printed by `print "use %s;" % db_name`. -/
def use_line (cfg : Config) : Word := "use ".toList ++ cfg.db_name ++ ";".toList

/-- `main()`: open and load the dictionary (aborting with the `IOError` when
the file is `none`), print the optional use line, then run the record loop
for `last_id_exclusive - first_id_inclusive` iterations (zero when the
range is empty, as in the Python `while`). -/
def run (cfg : Config) (file : Option (List Word)) (sh : Nat → List Word → List Word) :
    List Stmt × Option PyErr :=
  match file with
  | none => ([], some PyErr.ioError)
  | some lines =>
    match main_loop cfg (init_state lines sh)
        (cfg.last_id_exclusive - cfg.first_id_inclusive).toNat cfg.first_id_inclusive with
    | (recs, err) =>
      ((if cfg.print_use_db_line then [Stmt.useDb (use_line cfg)] else []) ++ recs, err)

/-- `n` successive calls of `next_word`, collecting the returned words. -/
def draw_n (s : GenState) : Nat → Except PyErr (List Word × GenState)
  | 0 => .ok ([], s)
  | n + 1 =>
    match next_word s with
    | .error e => .error e
    | .ok (w, s') =>
      match draw_n s' n with
      | .error e => .error e
      | .ok (ws, s'') => .ok (w :: ws, s'')

/-- The ascending run of `n` integers starting at `i`. -/
def id_range : Int → Nat → List Int
  | _, 0 => []
  | i, n + 1 => i :: id_range (i + 1) n

/-- The expected (table, seller_id, stock) summaries of `n` records starting
at index `i`. -/
def expected_summaries (tbl : Word) (last : Int) : Nat → Int → List (Option Word × Option Int × Option Int)
  | 0, _ => []
  | n + 1, i => (some tbl, some i, some (last * 5 - i)) :: expected_summaries tbl last n (i + 1)

/-- A shuffle oracle behaves like `random.shuffle`: each output is a
permutation of its input. -/
abbrev PermOracle (sh : Nat → List Word → List Word) : Prop :=
  ∀ n l, (sh n l).Perm l

/-- Invariant maintained by the generator: the pool is nonempty, the cursor
is in range, and the shuffle oracle permutes. -/
abbrev Inv (s : GenState) : Prop :=
  s.words ≠ [] ∧ s.word_index < s.words.length ∧ PermOracle s.shuffles

/-- The identity shuffle oracle, used as a concrete permutation oracle. -/
def id_shuffles : Nat → List Word → List Word := fun _ _l => _l

/-- The word file of the spec's end-to-end example. -/
def file3 : List Word := ["alpha".toList, "beta".toList, "gamma".toList]

/-- The configuration hardcoded in the script's flags block. -/
def cfg3 : Config := ⟨0, 4, "sql-serv".toList, "Medium_Size".toList, true⟩

/-- The flags configuration with a degenerate (empty) id range. -/
def cfg7 : Config := ⟨0, 0, "sql-serv".toList, "Medium_Size".toList, true⟩

/-- A dictionary source containing only punctuation/blank lines. -/
def punctLines : List Word := ["...".toList, "".toList, "?!?".toList]

/-- A pool holding one two-character word. -/
def oneWordState : GenState := ⟨["ab".toList], 0, id_shuffles, 0⟩

/-- A pool of four two-character words, cursor at 0. -/
def fourWordState : GenState :=
  ⟨["ab".toList, "cd".toList, "ef".toList, "gh".toList], 0, id_shuffles, 0⟩

/-- `fourWordState` after one `next_word` call. -/
def fourWordState1 : GenState :=
  ⟨["ab".toList, "cd".toList, "ef".toList, "gh".toList], 1, id_shuffles, 0⟩

/-- A two-word pool at a cycle start. -/
def twoWordState : GenState := ⟨["aa".toList, "bb".toList], 0, id_shuffles, 0⟩

/-! ### Helper lemmas about `next_word` and `vchar_loop` -/

/-- Unfolding of `vchar_loop` when the loop guard fails. -/
theorem vchar_loop_stop (s : GenState) (ml used : Nat) (chosen : List Word)
    (h : ¬ used < ml) : vchar_loop s ml used chosen = .ok (chosen, used, s) := by
  unfold vchar_loop
  simp [h]

/-- Unfolding of `vchar_loop` for one successful iteration. -/
theorem vchar_loop_step (s s' : GenState) (ml used : Nat) (chosen : List Word) (w : Word)
    (h : used < ml) (hn : next_word s = .ok (w, s')) :
    vchar_loop s ml used chosen = vchar_loop s' ml (used + w.length + 1) (chosen ++ [w]) := by
  rw [vchar_loop.eq_def, dif_pos h, hn]

/-- `vchar_loop` propagates a `next_word` failure. -/
theorem vchar_loop_err (s : GenState) (ml used : Nat) (chosen : List Word) (e : PyErr)
    (h : used < ml) (hn : next_word s = .error e) :
    vchar_loop s ml used chosen = .error e := by
  rw [vchar_loop.eq_def, dif_pos h, hn]

/-- Under the invariant, `next_word` succeeds, returns the word under the
cursor, and preserves the invariant; the new pool is a permutation of the
old and the oracle is unchanged. -/
theorem next_word_ok (s : GenState) (h : Inv s) :
    ∃ w s', next_word s = .ok (w, s') ∧ s.words[s.word_index]? = some w ∧
      Inv s' ∧ s'.words.Perm s.words ∧ s'.shuffles = s.shuffles := by
  obtain ⟨hne, hidx, hsh⟩ := h
  have hlen : 0 < s.words.length := List.length_pos.mpr hne
  have hget : s.words[s.word_index]? = some s.words[s.word_index] :=
    List.getElem?_eq_getElem hidx
  by_cases hwrap : (s.word_index + 1) % s.words.length = 0
  · refine ⟨s.words[s.word_index],
      ⟨s.shuffles s.shuffle_count s.words, 0, s.shuffles, s.shuffle_count + 1⟩,
      ?_, hget, ?_, hsh s.shuffle_count s.words, rfl⟩
    · unfold next_word
      rw [hget]
      simp [hwrap]
    · have hperm := hsh s.shuffle_count s.words
      refine ⟨?_, ?_, hsh⟩
      · intro hnil
        exact hne (hperm.symm.trans (hnil ▸ List.Perm.refl _)).eq_nil
      · simpa [hperm.length_eq] using hlen
  · refine ⟨s.words[s.word_index],
      ⟨s.words, (s.word_index + 1) % s.words.length, s.shuffles, s.shuffle_count⟩,
      ?_, hget, ⟨hne, Nat.mod_lt _ hlen, hsh⟩, List.Perm.refl _, rfl⟩
    unfold next_word
    rw [hget]
    simp [hwrap]

/-- Joining a nonempty list of words with single spaces yields a text one
character shorter than the accumulated count `wsum`. -/
theorem join_sp_length (ws : List Word) (h : ws ≠ []) :
    (join_sp ws).length = wsum ws - 1 := by
  induction ws with
  | nil => exact absurd rfl h
  | cons w t ih =>
    cases t with
    | nil => simp [join_sp, wsum]
    | cons w2 t2 =>
      have ih2 := ih (by simp)
      simp only [join_sp, wsum, List.length_append, List.length_cons] at ih2 ⊢
      have h1 : 1 ≤ wsum t2 + 1 := by omega
      omega

/-- Main loop lemma for `vchar_loop`: under the invariant it always succeeds,
appending freshly drawn words to `chosen` until the accumulated count
reaches `ml`, and it preserves the invariant. -/
theorem vchar_loop_spec : ∀ (fuel ml used : Nat) (chosen : List Word) (s : GenState),
    ml - used ≤ fuel → Inv s →
    ∃ new u s', vchar_loop s ml used chosen = .ok (chosen ++ new, u, s') ∧
      u = used + wsum new ∧ ml ≤ u ∧ (used < ml → new ≠ []) ∧
      Inv s' ∧ s'.words.Perm s.words ∧ s'.shuffles = s.shuffles := by
  intro fuel
  induction fuel with
  | zero =>
    intro ml used chosen s hf hinv
    have h : ¬ used < ml := by omega
    refine ⟨[], used, s, ?_, by simp [wsum], by omega,
      fun hc => absurd hc h, hinv, List.Perm.refl _, rfl⟩
    rw [vchar_loop_stop s ml used chosen h]
    simp
  | succ fuel ih =>
    intro ml used chosen s hf hinv
    by_cases h : used < ml
    · obtain ⟨w, s', hnw, _, hinv', hperm, hsh⟩ := next_word_ok s hinv
      obtain ⟨new, u, s'', heq, hu, hml, _, hinv'', hperm', hsh'⟩ :=
        ih ml (used + w.length + 1) (chosen ++ [w]) s' (by omega) hinv'
      refine ⟨w :: new, u, s'', ?_, ?_, hml, fun _ => by simp,
        hinv'', hperm'.trans hperm, by rw [hsh', hsh]⟩
      · rw [vchar_loop_step s s' ml used chosen w h hnw, heq]
        simp
      · simp only [wsum] at hu ⊢
        omega
    · refine ⟨[], used, s, ?_, by simp [wsum], by omega,
        fun hc => absurd hc h, hinv, List.Perm.refl _, rfl⟩
      rw [vchar_loop_stop s ml used chosen h]
      simp

/-- Under the invariant, `make_vchar` succeeds for any bound `ml ≥ 1` and
returns a text of length `ml` or `ml - 1`, preserving the invariant. -/
theorem make_vchar_spec (s : GenState) (ml : Nat) (hml : 1 ≤ ml) (hinv : Inv s) :
    ∃ t s', make_vchar s ml = .ok (t, s') ∧ (t.length = ml ∨ t.length = ml - 1) ∧
      Inv s' ∧ s'.words.Perm s.words ∧ s'.shuffles = s.shuffles := by
  obtain ⟨new, u, s', heq, hu, hmlu, hne, hinv', hperm, hsh⟩ :=
    vchar_loop_spec ml ml 0 [] s (by omega) hinv
  have hnew : new ≠ [] := hne (by omega)
  have hjoin : (join_sp new).length = wsum new - 1 := join_sp_length new hnew
  simp only [List.nil_append] at heq
  refine ⟨(join_sp new).take ml, s', ?_, ?_, hinv', hperm, hsh⟩
  · simp [make_vchar, heq]
  · rw [List.length_take, hjoin]
    omega

/-- Under the invariant, one record generation succeeds and produces an
insert statement for the configured table whose `seller_id` is the loop
index and whose `stock` is `last_id_exclusive * 5 - i`. -/
theorem gen_record_ok (cfg : Config) (s : GenState) (i : Int) (hinv : Inv s) :
    ∃ st s', gen_record cfg s i = .ok (st, s') ∧
      stmt_summary st = (some cfg.table_name, some i, some (cfg.last_id_exclusive * 5 - i)) ∧
      Inv s' ∧ s'.words.Perm s.words ∧ s'.shuffles = s.shuffles := by
  obtain ⟨p1, s1, h1, _, hv1, hp1, hs1⟩ := make_vchar_spec s 48 (by omega) hinv
  obtain ⟨p2, s2, h2, _, hv2, hp2, hs2⟩ := make_vchar_spec s1 2024 (by omega) hv1
  obtain ⟨p3, s3, h3, _, hv3, hp3, hs3⟩ := make_vchar_spec s2 128 (by omega) hv2
  obtain ⟨p4, s4, h4, _, hv4, hp4, hs4⟩ := make_vchar_spec s3 7168 (by omega) hv3
  refine ⟨.insertRec cfg.table_name p1 p2 i p3 i p4 (cfg.last_id_exclusive * 5 - i),
    s4, ?_, rfl, hv4, ((hp4.trans hp3).trans hp2).trans hp1,
    by rw [hs4, hs3, hs2, hs1]⟩
  simp [gen_record, h1, h2, h3, h4]

/-- Under the invariant, the record loop runs to completion and its records
summarize to `expected_summaries`. -/
theorem main_loop_spec (cfg : Config) :
    ∀ (n : Nat) (s : GenState) (i : Int), Inv s →
    ∃ recs, main_loop cfg s n i = (recs, none) ∧
      recs.map stmt_summary =
        expected_summaries cfg.table_name cfg.last_id_exclusive n i := by
  intro n
  induction n with
  | zero =>
    intro s i _
    exact ⟨[], rfl, rfl⟩
  | succ n ih =>
    intro s i hinv
    obtain ⟨st, s', hgr, hsum, hinv', _, _⟩ := gen_record_ok cfg s i hinv
    obtain ⟨recs, hml, hmap⟩ := ih s' (i + 1) hinv'
    refine ⟨st :: recs, ?_, ?_⟩
    · simp [main_loop, hgr, hml]
    · simp [expected_summaries, hsum, hmap]

/-- The loop propagates a failure of the first record generation. -/
theorem main_loop_first_err (cfg : Config) (s : GenState) (n : Nat) (i : Int) (e : PyErr)
    (h : gen_record cfg s i = .error e) :
    main_loop cfg s (n + 1) i = ([], some e) := by
  simp [main_loop, h]

/-- Whole-program lemma: with an openable file yielding a nonempty pool and
a permuting shuffle oracle, the run terminates normally, output is the
optional use line followed by the generated records, and the records
summarize to `expected_summaries`. -/
theorem run_spec (cfg : Config) (lines : List Word) (sh : Nat → List Word → List Word)
    (hsh : PermOracle sh) (hw : load_words lines ≠ []) :
    ∃ recs, run cfg (some lines) sh =
      ((if cfg.print_use_db_line then [Stmt.useDb (use_line cfg)] else []) ++ recs, none) ∧
      recs.map stmt_summary = expected_summaries cfg.table_name cfg.last_id_exclusive
        (cfg.last_id_exclusive - cfg.first_id_inclusive).toNat cfg.first_id_inclusive := by
  have hperm := hsh 0 (load_words lines)
  have hinv : Inv (init_state lines sh) := by
    refine ⟨?_, ?_, hsh⟩
    · intro hnil
      exact hw (hperm.symm.trans (hnil ▸ List.Perm.refl _)).eq_nil
    · simpa [init_state, hperm.length_eq] using List.length_pos.mpr hw
  obtain ⟨recs, hml, hmap⟩ := main_loop_spec cfg
    (cfg.last_id_exclusive - cfg.first_id_inclusive).toNat (init_state lines sh)
    cfg.first_id_inclusive hinv
  exact ⟨recs, by simp [run, hml], hmap⟩

/-- `expected_summaries` always has exactly `n` entries. -/
theorem expected_summaries_length (tbl : Word) (last : Int) :
    ∀ (n : Nat) (i : Int), (expected_summaries tbl last n i).length = n := by
  intro n
  induction n with
  | zero => intro i; rfl
  | succ n ih => intro i; simp [expected_summaries, ih]

/-- The seller_id component of `expected_summaries` is the ascending id
range. -/
theorem expected_summaries_sellers (tbl : Word) (last : Int) :
    ∀ (n : Nat) (i : Int),
      (expected_summaries tbl last n i).map (fun p => p.2.1) = (id_range i n).map some := by
  intro n
  induction n with
  | zero => intro i; rfl
  | succ n ih => intro i; simp [expected_summaries, id_range, ih]

/-! ### Helper lemma for the `next_word` cycle structure -/

/-- Drawing the remaining `m = len - word_index` words of the current cycle
returns exactly the tail of the pool from the cursor on, and leaves the
generator on a freshly reshuffled pool with the cursor reset to 0. -/
theorem draw_cycle : ∀ (m : Nat) (s : GenState),
    s.word_index + m = s.words.length → s.word_index < s.words.length →
    draw_n s m = .ok (s.words.drop s.word_index,
      ⟨s.shuffles s.shuffle_count s.words, 0, s.shuffles, s.shuffle_count + 1⟩) := by
  intro m
  induction m with
  | zero =>
    intro s h1 h2
    omega
  | succ m ih =>
    intro s h1 h2
    have hlen : 0 < s.words.length := by omega
    have hget : s.words[s.word_index]? = some s.words[s.word_index] :=
      List.getElem?_eq_getElem h2
    have hdrop : s.words.drop s.word_index = s.words[s.word_index] :: s.words.drop (s.word_index + 1) :=
      List.drop_eq_getElem_cons h2
    by_cases hm : m = 0
    · subst hm
      have hwrap : (s.word_index + 1) % s.words.length = 0 := by
        have hx : s.word_index + 1 = s.words.length := by omega
        simp [hx]
      have hnw : next_word s = .ok (s.words[s.word_index],
          ⟨s.shuffles s.shuffle_count s.words, 0, s.shuffles, s.shuffle_count + 1⟩) := by
        unfold next_word
        rw [hget]
        simp [hwrap]
      have hdrop1 : s.words.drop (s.word_index + 1) = [] :=
        List.drop_eq_nil_of_le (by omega)
      rw [hdrop, hdrop1]
      simp [draw_n, hnw]
    · have hlt : s.word_index + 1 < s.words.length := by omega
      have hmod : (s.word_index + 1) % s.words.length = s.word_index + 1 :=
        Nat.mod_eq_of_lt hlt
      have hnz : ¬ (s.word_index + 1) % s.words.length = 0 := by omega
      have hnw : next_word s = .ok (s.words[s.word_index],
          ⟨s.words, s.word_index + 1, s.shuffles, s.shuffle_count⟩) := by
        unfold next_word
        rw [hget]
        simp [hnz, hmod]
      have ih' := ih ⟨s.words, s.word_index + 1, s.shuffles, s.shuffle_count⟩
        (by simpa using by omega) (by simpa using hlt)
      rw [hdrop]
      simp [draw_n, hnw, ih']

/-! ### Claim theorems -/

/-- Claim C1, counterexample: on a pool of four two-character words (which
supplies words indefinitely, so "total achievable" is unbounded),
`make_vchar 3` returns a text of length 2, not `min 3 achievable = 3`:
after one drawn word the accumulated count `0 + 2 + 1` already meets the
bound, and `"ab"[:3]` has length 2.  Pools of this shape exist at every
size, so no "sufficiently large pool" restores exact length. -/
theorem make_vchar_len_short_cex :
    (make_vchar fourWordState 3).toOption.map (fun p => p.1.length) = some 2 ∧
    (make_vchar fourWordState 3).toOption.map (fun p => p.1.length) ≠ some 3 := by
  have h1 : next_word fourWordState = .ok ("ab".toList, fourWordState1) := rfl
  have h2 : vchar_loop fourWordState 3 0 [] = .ok (["ab".toList], 3, fourWordState1) := by
    rw [vchar_loop_step fourWordState fourWordState1 3 0 [] ("ab".toList) (by omega) h1]
    exact vchar_loop_stop fourWordState1 3 3 ["ab".toList] (by omega)
  have h3 : make_vchar fourWordState 3 = .ok (['a', 'b'], fourWordState1) := by
    unfold make_vchar
    rw [h2]
    rfl
  rw [h3]
  exact ⟨rfl, by decide⟩

/-- Claim C1 (amended): for every bound `L ≥ 1` and nonempty pool (with a
permuting shuffle oracle), `make_vchar` returns a string of length at most
`L`, namely of length `L` or `L - 1`; exact length `L` is not guaranteed
even for arbitrarily large pools. -/
theorem make_vchar_len_bounds (s : GenState) (ml : Nat) (hinv : Inv s) (hml : 1 ≤ ml) :
    ∃ t s', make_vchar s ml = .ok (t, s') ∧ t.length ≤ ml ∧
      (t.length = ml ∨ t.length = ml - 1) := by
  obtain ⟨t, s', h1, h2, _⟩ := make_vchar_spec s ml hml hinv
  exact ⟨t, s', h1, by omega, h2⟩

/-- Claim C1 witness: the amended bound at the one-word pool with `L = 3`. -/
theorem make_vchar_len_bounds_witness :
    Inv oneWordState ∧ 1 ≤ 3 ∧
    (∃ t s', make_vchar oneWordState 3 = .ok (t, s') ∧ t.length ≤ 3 ∧
      (t.length = 3 ∨ t.length = 3 - 1)) := by
  have hinv : Inv oneWordState := ⟨by decide, by decide, fun n l => List.Perm.refl l⟩
  exact ⟨hinv, by omega, make_vchar_len_bounds oneWordState 3 hinv (by omega)⟩

/-- Claim C9: for a nonempty pool of nonempty words and any `max_len ≥ 1`,
`make_vchar` returns a string of length `max_len` or `max_len - 1`, and the
length is `max_len - 1` exactly when the accumulated count `used` equals
`max_len` when the loop exits. -/
theorem make_vchar_len_iff (s : GenState) (ml : Nat) (hml : 1 ≤ ml) (hinv : Inv s)
    (hw : ∀ w ∈ s.words, w ≠ []) :
    ∃ chosen u s', vchar_loop s ml 0 [] = .ok (chosen, u, s') ∧
      make_vchar s ml = .ok ((join_sp chosen).take ml, s') ∧
      (((join_sp chosen).take ml).length = ml ∨ ((join_sp chosen).take ml).length = ml - 1) ∧
      (((join_sp chosen).take ml).length = ml - 1 ↔ u = ml) := by
  obtain ⟨new, u, s', heq, hu, hmlu, hne, _, _, _⟩ :=
    vchar_loop_spec ml ml 0 [] s (by omega) hinv
  have hnew : new ≠ [] := hne (by omega)
  have hjoin := join_sp_length new hnew
  simp only [List.nil_append] at heq
  refine ⟨new, u, s', heq, by simp [make_vchar, heq], ?_, ?_⟩
  · rw [List.length_take, hjoin]
    omega
  · rw [List.length_take, hjoin]
    omega

/-- Claim C9 witness: the one-word pool `["ab"]` with `max_len = 3` (the
loop exits with `used = 3`, so the returned length is `3 - 1 = 2`). -/
theorem make_vchar_len_iff_witness :
    (1 ≤ 3 ∧ Inv oneWordState ∧ (∀ w ∈ oneWordState.words, w ≠ [])) ∧
    (∃ chosen u s', vchar_loop oneWordState 3 0 [] = .ok (chosen, u, s') ∧
      make_vchar oneWordState 3 = .ok ((join_sp chosen).take 3, s') ∧
      (((join_sp chosen).take 3).length = 3 ∨ ((join_sp chosen).take 3).length = 3 - 1) ∧
      (((join_sp chosen).take 3).length = 3 - 1 ↔ u = 3)) := by
  have hinv : Inv oneWordState := ⟨by decide, by decide, fun n l => List.Perm.refl l⟩
  exact ⟨⟨by omega, hinv, by decide⟩,
    make_vchar_len_iff oneWordState 3 (by omega) hinv (by decide)⟩

/-- Claim C10: under the invariant, every `next_word` call, every
`make_vchar` call and every row-generation step keeps the pool a
permutation of the previous pool (hence of the originally loaded multiset)
and keeps the cursor inside `[0, len(words))`. -/
theorem pool_perm_invariant (s : GenState) (hinv : Inv s) :
    (∀ w s', next_word s = .ok (w, s') →
      s'.words.Perm s.words ∧ s'.word_index < s'.words.length) ∧
    (∀ ml t s', make_vchar s ml = .ok (t, s') →
      s'.words.Perm s.words ∧ s'.word_index < s'.words.length) ∧
    (∀ cfg i st s', gen_record cfg s i = .ok (st, s') →
      s'.words.Perm s.words ∧ s'.word_index < s'.words.length) := by
  refine ⟨?_, ?_, ?_⟩
  · intro w s' h
    obtain ⟨w0, s0, hnw, _, hinv0, hperm0, _⟩ := next_word_ok s hinv
    rw [hnw] at h
    simp only [Except.ok.injEq, Prod.mk.injEq] at h
    obtain ⟨_, rfl⟩ := h
    exact ⟨hperm0, hinv0.2.1⟩
  · intro ml t s' h
    obtain ⟨new, u, s0, heq, _, _, _, hinv0, hperm0, _⟩ :=
      vchar_loop_spec ml ml 0 [] s (by omega) hinv
    simp only [List.nil_append] at heq
    have hmv : make_vchar s ml = .ok ((join_sp new).take ml, s0) := by
      simp [make_vchar, heq]
    rw [hmv] at h
    simp only [Except.ok.injEq, Prod.mk.injEq] at h
    obtain ⟨_, rfl⟩ := h
    exact ⟨hperm0, hinv0.2.1⟩
  · intro cfg i st s' h
    obtain ⟨st0, s0, hgr, _, hinv0, hperm0, _⟩ := gen_record_ok cfg s i hinv
    rw [hgr] at h
    simp only [Except.ok.injEq, Prod.mk.injEq] at h
    obtain ⟨_, rfl⟩ := h
    exact ⟨hperm0, hinv0.2.1⟩

/-- Claim C10 witness: the invariant and the preservation statement at the
four-word pool. -/
theorem pool_perm_invariant_witness :
    Inv fourWordState ∧
    ((∀ w s', next_word fourWordState = .ok (w, s') →
        s'.words.Perm fourWordState.words ∧ s'.word_index < s'.words.length) ∧
     (∀ ml t s', make_vchar fourWordState ml = .ok (t, s') →
        s'.words.Perm fourWordState.words ∧ s'.word_index < s'.words.length) ∧
     (∀ cfg i st s', gen_record cfg fourWordState i = .ok (st, s') →
        s'.words.Perm fourWordState.words ∧ s'.word_index < s'.words.length)) := by
  have hinv : Inv fourWordState := ⟨by decide, by decide, fun n l => List.Perm.refl l⟩
  exact ⟨hinv, pool_perm_invariant fourWordState hinv⟩

/-- Claim C4: starting a cycle (cursor 0) on a nonempty pool of size `k`
with a permuting oracle, `k` successive `next_word` calls return precisely
the pool elements, each exactly once (a permutation of the pool), and the
`(k+1)`-th call draws the head of the freshly reshuffled pool. -/
theorem next_word_cycle (s : GenState) (h0 : s.word_index = 0) (hne : s.words ≠ [])
    (hsh : PermOracle s.shuffles) :
    ∃ out s', draw_n s s.words.length = .ok (out, s') ∧
      out.Perm s.words ∧
      s'.words = s.shuffles s.shuffle_count s.words ∧ s'.word_index = 0 ∧
      ∃ w s'', next_word s' = .ok (w, s'') ∧ s'.words.head? = some w := by
  have hlen : 0 < s.words.length := List.length_pos.mpr hne
  have hd := draw_cycle s.words.length s (by omega) (by omega)
  rw [h0, List.drop_zero] at hd
  refine ⟨s.words, ⟨s.shuffles s.shuffle_count s.words, 0, s.shuffles, s.shuffle_count + 1⟩,
    hd, List.Perm.refl _, rfl, rfl, ?_⟩
  have hinv' : Inv ⟨s.shuffles s.shuffle_count s.words, 0, s.shuffles, s.shuffle_count + 1⟩ := by
    have hperm := hsh s.shuffle_count s.words
    refine ⟨?_, ?_, hsh⟩
    · intro hnil
      exact hne (hperm.symm.trans (hnil ▸ List.Perm.refl _)).eq_nil
    · simpa [hperm.length_eq] using hlen
  obtain ⟨w, s'', hnw, hg, _, _, _⟩ := next_word_ok _ hinv'
  refine ⟨w, s'', hnw, ?_⟩
  rw [List.head?_eq_getElem?]
  exact hg

/-- Claim C4 witness: the cycle property at the two-word pool. -/
theorem next_word_cycle_witness :
    (twoWordState.word_index = 0 ∧ twoWordState.words ≠ [] ∧
      PermOracle twoWordState.shuffles) ∧
    (∃ out s', draw_n twoWordState twoWordState.words.length = .ok (out, s') ∧
      out.Perm twoWordState.words ∧
      s'.words = twoWordState.shuffles twoWordState.shuffle_count twoWordState.words ∧
      s'.word_index = 0 ∧
      ∃ w s'', next_word s' = .ok (w, s'') ∧ s'.words.head? = some w) :=
  ⟨⟨rfl, by decide, fun n l => List.Perm.refl l⟩,
   next_word_cycle twoWordState rfl (by decide) (fun n l => List.Perm.refl l)⟩

/-- Claim C2, counterexample: running the hardcoded configuration on a
dictionary of only punctuation/blank lines does not raise any
`ConfigurationError` before generation: the use line is printed and the
run then dies with an `IndexError` inside word sampling (`words[0]` on the
empty pool) while generating the first record. -/
theorem empty_pool_index_error_cex :
    run cfg3 (some punctLines) id_shuffles =
      ([Stmt.useDb ("use sql-serv;".toList)], some PyErr.indexError) ∧
    (run cfg3 (some punctLines) id_shuffles).2 ≠ some PyErr.configurationError ∧
    (run cfg3 (some punctLines) id_shuffles).1 ≠ [] := by
  have hnw : next_word (init_state punctLines id_shuffles) = .error PyErr.indexError := rfl
  have hvl := vchar_loop_err (init_state punctLines id_shuffles) 48 0 [] PyErr.indexError
    (by omega) hnw
  have hmv : make_vchar (init_state punctLines id_shuffles) 48 = .error PyErr.indexError := by
    simp [make_vchar, hvl]
  have hgr : gen_record cfg3 (init_state punctLines id_shuffles) 0 = .error PyErr.indexError := by
    simp [gen_record, hmv]
  have hrun : run cfg3 (some punctLines) id_shuffles =
      (match main_loop cfg3 (init_state punctLines id_shuffles) 4 0 with
       | (recs, err) => ([Stmt.useDb (use_line cfg3)] ++ recs, err)) := rfl
  have hloop : main_loop cfg3 (init_state punctLines id_shuffles) 4 0 =
      ([], some PyErr.indexError) :=
    main_loop_first_err cfg3 (init_state punctLines id_shuffles) 3 0 PyErr.indexError hgr
  rw [hrun, hloop]
  refine ⟨?_, ?_, ?_⟩ <;> decide

/-- Claim C2 (amended): loading a dictionary source that yields an empty
pool raises no `ConfigurationError` and nothing is validated before
generation; instead, for any configuration requesting at least one record,
the program emits its optional use line and then aborts with an
`IndexError` at the first `next_word` call inside record generation. -/
theorem run_empty_pool (cfg : Config) (lines : List Word) (sh : Nat → List Word → List Word)
    (hsh : PermOracle sh) (hw : load_words lines = [])
    (hlt : cfg.first_id_inclusive < cfg.last_id_exclusive) :
    run cfg (some lines) sh =
      ((if cfg.print_use_db_line then [Stmt.useDb (use_line cfg)] else []),
        some PyErr.indexError) := by
  have hwords : (init_state lines sh).words = [] := by
    have hperm := hsh 0 (load_words lines)
    rw [hw] at hperm
    simpa [init_state, hw] using hperm.eq_nil
  have hnw : next_word (init_state lines sh) = .error PyErr.indexError := by
    unfold next_word
    rw [hwords]
    rfl
  have hvl := vchar_loop_err (init_state lines sh) 48 0 [] PyErr.indexError (by omega) hnw
  have hmv : make_vchar (init_state lines sh) 48 = .error PyErr.indexError := by
    simp [make_vchar, hvl]
  have hgr : gen_record cfg (init_state lines sh) cfg.first_id_inclusive =
      .error PyErr.indexError := by
    simp [gen_record, hmv]
  obtain ⟨k, hk⟩ : ∃ k, (cfg.last_id_exclusive - cfg.first_id_inclusive).toNat = k + 1 :=
    ⟨(cfg.last_id_exclusive - cfg.first_id_inclusive).toNat - 1, by omega⟩
  have hloop := main_loop_first_err cfg (init_state lines sh) k cfg.first_id_inclusive
    PyErr.indexError hgr
  simp [run, hk, hloop]

/-- Claim C2 witness: the amended behaviour at the hardcoded configuration
over a punctuation-only dictionary with the identity oracle. -/
theorem run_empty_pool_witness :
    (PermOracle id_shuffles ∧ load_words punctLines = [] ∧
      cfg3.first_id_inclusive < cfg3.last_id_exclusive) ∧
    run cfg3 (some punctLines) id_shuffles =
      ([Stmt.useDb (use_line cfg3)], some PyErr.indexError) := by
  refine ⟨⟨fun n l => List.Perm.refl l, by decide, by decide⟩, ?_⟩
  have h := run_empty_pool cfg3 punctLines id_shuffles
    (fun n l => List.Perm.refl l) (by decide) (by decide)
  simpa using h

/-- Claim C3, counterexample: the output of the example configuration does
not start with a literal `USE sql-serv;` line — the script prints the
lowercase `use sql-serv;`. -/
theorem use_line_case_cex :
    (run cfg3 (some file3) id_shuffles).1.head? ≠
      some (Stmt.useDb ("USE sql-serv;".toList)) := by
  obtain ⟨recs, hrun, _⟩ := run_spec cfg3 file3 id_shuffles
    (fun n l => List.Perm.refl l) (by decide)
  rw [hrun]
  intro hcontra
  have hh : ((if cfg3.print_use_db_line then [Stmt.useDb (use_line cfg3)] else [])
      ++ recs, (none : Option PyErr)).1.head? = some (Stmt.useDb (use_line cfg3)) := rfl
  have h2 := hh.symm.trans hcontra
  have h3 := Option.some.inj h2
  have h4 : use_line cfg3 = "USE sql-serv;".toList := by injection h3
  exact absurd h4 (by decide)

/-- Claim C3 (amended): with the configuration
`{first 0, last 4, table "Medium_Size", use line on, db "sql-serv"}` over
the word list `["alpha","beta","gamma"]` and any permuting shuffle oracle,
the output is the line `use sql-serv;` (lowercase keyword, as printed by
the script) followed by exactly 4 insert statements for table
`Medium_Size` with seller_id values 0,1,2,3 and stock values 20,19,18,17. -/
theorem end_to_end_example (sh : Nat → List Word → List Word) (hsh : PermOracle sh) :
    ∃ recs, run cfg3 (some file3) sh = (Stmt.useDb ("use sql-serv;".toList) :: recs, none) ∧
      recs.length = 4 ∧
      recs.map stmt_summary =
        [(some ("Medium_Size".toList), some 0, some 20),
         (some ("Medium_Size".toList), some 1, some 19),
         (some ("Medium_Size".toList), some 2, some 18),
         (some ("Medium_Size".toList), some 3, some 17)] := by
  obtain ⟨recs, hrun, hmap⟩ := run_spec cfg3 file3 sh hsh (by decide)
  have hline : (if cfg3.print_use_db_line then [Stmt.useDb (use_line cfg3)] else []) =
      [Stmt.useDb ("use sql-serv;".toList)] := by decide
  rw [hline] at hrun
  have hlen : recs.length = 4 := by
    have h := congrArg List.length hmap
    rw [List.length_map] at h
    rw [h]
    decide
  refine ⟨recs, by simpa using hrun, hlen, ?_⟩
  rw [hmap]
  decide

/-- Claim C3 witness: the amended end-to-end example with the identity
shuffle oracle. -/
theorem end_to_end_example_witness :
    PermOracle id_shuffles ∧
    (∃ recs, run cfg3 (some file3) id_shuffles =
        (Stmt.useDb ("use sql-serv;".toList) :: recs, none) ∧
      recs.length = 4 ∧
      recs.map stmt_summary =
        [(some ("Medium_Size".toList), some 0, some 20),
         (some ("Medium_Size".toList), some 1, some 19),
         (some ("Medium_Size".toList), some 2, some 18),
         (some ("Medium_Size".toList), some 3, some 17)]) :=
  ⟨fun n l => List.Perm.refl l,
   end_to_end_example id_shuffles (fun n l => List.Perm.refl l)⟩

/-- Claim C5: for any configuration with `first ≤ last` (row count
`n = last - first ≥ 0`), a run over a nonempty pool emits exactly the
optional use line plus `n` record statements, one per index in
`[first, last)` in ascending order (the `j`-th record's seller_id is
`first + j`). -/
theorem run_record_count (cfg : Config) (lines : List Word)
    (sh : Nat → List Word → List Word) (hsh : PermOracle sh)
    (hw : load_words lines ≠ [])
    (hle : cfg.first_id_inclusive ≤ cfg.last_id_exclusive) :
    ∃ recs, run cfg (some lines) sh =
      ((if cfg.print_use_db_line then [Stmt.useDb (use_line cfg)] else []) ++ recs, none) ∧
      (recs.length : Int) = cfg.last_id_exclusive - cfg.first_id_inclusive ∧
      recs.map stmt_seller =
        (id_range cfg.first_id_inclusive
          (cfg.last_id_exclusive - cfg.first_id_inclusive).toNat).map some := by
  obtain ⟨recs, hrun, hmap⟩ := run_spec cfg lines sh hsh hw
  have hlen : recs.length = (cfg.last_id_exclusive - cfg.first_id_inclusive).toNat := by
    have h := congrArg List.length hmap
    rw [List.length_map, expected_summaries_length] at h
    exact h
  refine ⟨recs, hrun, by omega, ?_⟩
  have hcomp : recs.map stmt_seller = (recs.map stmt_summary).map (fun p => p.2.1) := by
    rw [List.map_map]
    rfl
  rw [hcomp, hmap, expected_summaries_sellers]

/-- Claim C5 witness: the count and ascending indices at the hardcoded
configuration over the example word list. -/
theorem run_record_count_witness :
    (PermOracle id_shuffles ∧ load_words file3 ≠ [] ∧
      cfg3.first_id_inclusive ≤ cfg3.last_id_exclusive) ∧
    (∃ recs, run cfg3 (some file3) id_shuffles =
      ((if cfg3.print_use_db_line then [Stmt.useDb (use_line cfg3)] else []) ++ recs, none) ∧
      (recs.length : Int) = cfg3.last_id_exclusive - cfg3.first_id_inclusive ∧
      recs.map stmt_seller =
        (id_range cfg3.first_id_inclusive
          (cfg3.last_id_exclusive - cfg3.first_id_inclusive).toNat).map some) :=
  ⟨⟨fun n l => List.Perm.refl l, by decide, by decide⟩,
   run_record_count cfg3 file3 id_shuffles (fun n l => List.Perm.refl l)
     (by decide) (by decide)⟩

/-- Claim C6: whenever row generation for index `i` succeeds, the `stock`
column of the produced statement is exactly `last_id_exclusive * 5 - i`. -/
theorem gen_record_stock (cfg : Config) (s : GenState) (i : Int) (st : Stmt) (s' : GenState)
    (h : gen_record cfg s i = .ok (st, s')) :
    stmt_stock st = some (cfg.last_id_exclusive * 5 - i) := by
  unfold gen_record at h
  split at h
  · simp at h
  · split at h
    · simp at h
    · split at h
      · simp at h
      · split at h
        · simp at h
        · simp only [Except.ok.injEq, Prod.mk.injEq] at h
          obtain ⟨hst, _⟩ := h
          rw [← hst]
          rfl

/-- Claim C6 witness: a successful record generation at index 0 of the
hardcoded configuration, whose stock is `4 * 5 - 0 = 20`. -/
theorem gen_record_stock_witness :
    ∃ st s', gen_record cfg3 (init_state file3 id_shuffles) 0 = .ok (st, s') ∧
      stmt_stock st = some (cfg3.last_id_exclusive * 5 - 0) := by
  have hinv : Inv (init_state file3 id_shuffles) :=
    ⟨by decide, by decide, fun n l => List.Perm.refl l⟩
  obtain ⟨st, s', heq, _, _, _, _⟩ := gen_record_ok cfg3 (init_state file3 id_shuffles) 0 hinv
  exact ⟨st, s', heq, gen_record_stock cfg3 (init_state file3 id_shuffles) 0 st s' heq⟩

/-- Claim C7, counterexample: with `last_id_exclusive = first_id_inclusive`
(a degenerate run) and a perfectly good word file, the program raises no
`ConfigurationError` — it terminates normally after printing only the use
line. -/
theorem degenerate_run_no_error_cex :
    run cfg7 (some file3) id_shuffles = ([Stmt.useDb ("use sql-serv;".toList)], none) ∧
    (run cfg7 (some file3) id_shuffles).2 ≠ some PyErr.configurationError := by
  exact ⟨by decide, by decide⟩

/-- Claim C7 (amended): if `last_id_exclusive ≤ first_id_inclusive`, the
program is not validated against the degenerate range and raises nothing;
it emits the optional use line, zero record statements, and exits
normally. -/
theorem degenerate_run_empty_output (cfg : Config) (lines : List Word)
    (sh : Nat → List Word → List Word)
    (h : cfg.last_id_exclusive ≤ cfg.first_id_inclusive) :
    run cfg (some lines) sh =
      ((if cfg.print_use_db_line then [Stmt.useDb (use_line cfg)] else []), none) := by
  have h0 : (cfg.last_id_exclusive - cfg.first_id_inclusive).toNat = 0 := by omega
  simp [run, h0, main_loop]

/-- Claim C7 witness: the amended behaviour at the degenerate configuration
over the example word file. -/
theorem degenerate_run_empty_output_witness :
    cfg7.last_id_exclusive ≤ cfg7.first_id_inclusive ∧
    run cfg7 (some file3) id_shuffles = ([Stmt.useDb (use_line cfg7)], none) := by
  refine ⟨by decide, ?_⟩
  have h := degenerate_run_empty_output cfg7 file3 id_shuffles (by decide)
  simpa using h

/-- Claim C8: when the dictionary source cannot be opened, the run aborts
immediately with the resource error (the uncaught `IOError` from `open`,
the spec's `ResourceError`), before producing any output line: no records,
no use line, no retry. -/
theorem run_missing_file_aborts (cfg : Config) (sh : Nat → List Word → List Word) :
    run cfg none sh = ([], some PyErr.ioError) := rfl

end SqlInserts
